import Mathlib

/-!
Verification of the YMODEM sender core (`ymode.js`).

Byte buffers are modelled as `List Nat` with each element a byte value
(`< 256` where relevant).  JavaScript `Buffer` primitives used by the source
(`Buffer.alloc`, `buffer.copy`, `buffer.write`, `writeUInt16BE`, indexing)
are modelled by the `jsCopy`, `jsWrite`, `writeUInt16BE` helpers, and the
transfer driver's event loop (`readData`) is modelled as an explicit step
function `processByte` over a session-state record.
-/

namespace Ymodem

/-- Constant from the source: packet size of 128 bytes. -/
def PACKET_SIZE_128 : Nat := 128

/-- Constant from the source: packet size of 1024 bytes. -/
def PACKET_SIZE_1024 : Nat := 1024

/-- Start of Heading control byte. -/
def SOH : Nat := 0x01

/-- Start of Text control byte. -/
def STX : Nat := 0x02

/-- End of Transmission control byte. -/
def EOT : Nat := 0x04

/-- Acknowledge control byte. -/
def ACK : Nat := 0x06

/-- Negative Acknowledge control byte. -/
def NAK : Nat := 0x15

/-- Cancel control byte. -/
def CA : Nat := 0x18

/-- CRC16 request control byte (ASCII C). -/
def CRC16 : Nat := 0x43

/-- Model of Node `dst.copy`-style writes: `jsCopy dst dstStart src srcStart srcEnd`
copies the bytes `src[srcStart .. min srcEnd src.length)` into `dst` starting at
`dstStart`, truncated so the destination length never grows (Node `Buffer.copy`
semantics as used by the source). -/
def jsCopy (dst : List Nat) (dstStart : Nat) (src : List Nat) (srcStart srcEnd : Nat) :
    List Nat :=
  let seg := ((src.take srcEnd).drop srcStart).take (dst.length - dstStart)
  dst.take dstStart ++ seg ++ dst.drop (dstStart + seg.length)

/-- Model of Node `buf.write(string, offset)`: writes the bytes of the string at
`offset`, truncated at the end of the buffer. -/
def jsWrite (buf str : List Nat) (offset : Nat) : List Nat :=
  jsCopy buf offset str 0 str.length

/-- Model of Node `buf.writeUInt16BE(value, offset)`: stores the 16-bit value
big-endian at `offset`. -/
def writeUInt16BE (buf : List Nat) (offset value : Nat) : List Nat :=
  (buf.set offset ((value >>> 8) &&& 0xff)).set (offset + 1) (value &&& 0xff)

/-- The predefined `eot_pack` buffer from the source:
`Buffer.alloc(PACKET_SIZE_128 + 5, 0x00)` with byte 0 set to `SOH` and byte 2
set to `0xff`. -/
def eot_pack : List Nat :=
  ((List.replicate (PACKET_SIZE_128 + 5) 0x00).set 0 SOH).set 2 0xff

/-- One step of the source's `crc16xmodem` loop body: folds one input byte into
the running 16-bit register, following the shift-xor mixing of the source
line by line. -/
def mixByte (crc byte : Nat) : Nat :=
  let code := (crc >>> 8) &&& 0xff
  let code := code ^^^ (byte &&& 0xff)
  let code := code ^^^ (code >>> 4)
  let crc := (crc <<< 8) &&& 0xffff
  let crc := crc ^^^ code
  let code := (code <<< 5) &&& 0xffff
  let crc := crc ^^^ code
  let code := (code <<< 7) &&& 0xffff
  let crc := crc ^^^ code
  crc

/-- The source's `crc16xmodem(packet, begin, len, previous)`: iterates the loop
body over `packet[begin .. begin+len)` starting from `previous` (the source's
default seed is `0`, passed explicitly here). -/
def crc16xmodem (packet : List Nat) (start len previous : Nat) : Nat :=
  match len with
  | 0 => previous
  | n + 1 => crc16xmodem packet (start + 1) n (mixByte previous (packet.getD start 0))

/-- Modelled from the spec: one shift step of the textbook CRC16/XMODEM register
(polynomial `0x1021`, no reflection, MSB first, masked to 16 bits). -/
def crcStep (crc : Nat) : Nat :=
  if crc.testBit 15 then ((crc <<< 1) ^^^ 0x1021) &&& 0xffff else (crc <<< 1) &&& 0xffff

/-- Modelled from the spec: feeding one byte into the textbook CRC16/XMODEM
register is an xor into the high byte followed by eight polynomial shift
steps. -/
def crcRefByte (crc byte : Nat) : Nat :=
  crcStep^[8] (crc ^^^ (byte <<< 8))

/-- Modelled from the spec: the CRC16/XMODEM checksum of a byte list, seed 0. -/
def crcRef (bytes : List Nat) : Nat :=
  bytes.foldl crcRefByte 0

/-- The pure combination of the three shift-xor mixing steps of `mixByte`,
as a function of the mixed-in code byte alone. -/
def mixCode (code0 : Nat) : Nat :=
  let code := code0 ^^^ (code0 >>> 4)
  let code2 := (code <<< 5) &&& 0xffff
  let code3 := (code2 <<< 7) &&& 0xffff
  code ^^^ code2 ^^^ code3

/-- Decimal digit bytes (ASCII) of a positive number: fuel-indexed helper
modelling JavaScript `Number.prototype.toString` for nonnegative integers. -/
def toDecAux : Nat → Nat → List Nat
  | 0, _ => []
  | _ + 1, 0 => []
  | fuel + 1, n + 1 => toDecAux fuel ((n + 1) / 10) ++ [(n + 1) % 10 + 48]

/-- Model of JavaScript `filesize.toString()`: the ASCII decimal text of a
nonnegative integer. -/
def decBytes (n : Nat) : List Nat :=
  if n = 0 then [48] else toDecAux n n

/-- The source's `makeFileHeader(filename, filesize)`.  The filename is its
byte list; both `if (filename)` and `if (filesize)` truthiness tests of the
source become emptiness/zero tests. -/
def makeFileHeader (filename : List Nat) (filesize : Nat) : List Nat :=
  let File_HD_SIZE := 128
  let payload := List.replicate (File_HD_SIZE + 3 + 2) 0x00
  let payload := payload.set 0 SOH
  let payload := payload.set 1 0
  let payload := payload.set 2 0xff
  let offset := 3
  let po :=
    if filename = [] then (payload, offset)
    else (jsWrite payload filename offset, offset + filename.length + 1)
  let payload := po.1
  let offset := po.2
  let payload :=
    if filesize = 0 then payload
    else jsWrite payload (decBytes filesize ++ [0x20]) offset
  let crc := crc16xmodem payload 3 File_HD_SIZE 0
  writeUInt16BE payload (payload.length - 2) crc

/-- Number of data packets `splitFile` produces for a buffer of length `L`:
the source's `parseInt((byteLength + 1023) / 1024)`. -/
def maxPack (L : Nat) : Nat := (L + PACKET_SIZE_1024 - 1) / PACKET_SIZE_1024

/-- Loop body of the source's `splitFile`: builds the packet for index `i`
out of `maxPack`-many, following the source line by line (allocate the
filled chunk, set marker/sequence/complement, copy the file slice in at
offset 3, append the CRC big-endian). -/
def splitChunk (buffer : List Nat) (i n : Nat) : List Nat :=
  let totalBytes := buffer.length
  let is_last := i + 1 = n
  let packSize :=
    if is_last ∧ totalBytes - i * PACKET_SIZE_1024 ≤ 128 then PACKET_SIZE_128
    else PACKET_SIZE_1024
  let chunk := List.replicate (packSize + 3 + 2) (if is_last then 0x1A else 0x00)
  let seqb := (i + 1) &&& 0xff
  let chunk := chunk.set 0 (if packSize = PACKET_SIZE_1024 then STX else SOH)
  let chunk := chunk.set 1 seqb
  let chunk := chunk.set 2 (0xff - seqb)
  let chunk := jsCopy chunk 3 buffer (PACKET_SIZE_1024 * i) (PACKET_SIZE_1024 * i + packSize)
  let crc := crc16xmodem chunk 3 packSize 0
  writeUInt16BE chunk (chunk.length - 2) crc

/-- The source's `splitFile(buffer)`: the loop over `i` from 0 to
`maxPack - 1`, pushing one packet per index. -/
def splitFile (buffer : List Nat) : List (List Nat) :=
  (List.range (maxPack buffer.length)).map (fun i => splitChunk buffer i (maxPack buffer.length))

/-- Payload-region size the source chooses for packet index `i` (0-based). -/
def packSizeAt (L i : Nat) : Nat :=
  if i + 1 = maxPack L ∧ L - i * PACKET_SIZE_1024 ≤ 128 then PACKET_SIZE_128
  else PACKET_SIZE_1024

/-- Fill byte used for packet index `i` (0x1A on the last packet). -/
def fillAt (L i : Nat) : Nat := if i + 1 = maxPack L then 0x1A else 0x00

/-- File bytes carried by packet index `i`: the slice
`buffer[1024*i .. 1024*i + packSize)` clipped to the end of the buffer. -/
def dataSeg (buffer : List Nat) (i : Nat) : List Nat :=
  (buffer.drop (PACKET_SIZE_1024 * i)).take (packSizeAt buffer.length i)

/-- Payload region of packet index `i`: the carried file bytes, right-padded
with the fill byte to the frame size. -/
def payloadAt (buffer : List Nat) (i : Nat) : List Nat :=
  dataSeg buffer i ++
    List.replicate (packSizeAt buffer.length i - (dataSeg buffer i).length)
      (fillAt buffer.length i)

/-- On-wire sequence byte of data packet index `i` (0-based): `(i+1) mod 256`. -/
def seqByteAt (i : Nat) : Nat := (i + 1) % 256

/-- Closed-form description of the `i`-th packet built by `splitFile`:
marker, sequence byte, complement, padded payload, big-endian CRC trailer. -/
def cleanPack (buffer : List Nat) (i : Nat) : List Nat :=
  let ps := packSizeAt buffer.length i
  let pl := payloadAt buffer i
  let crc := crc16xmodem pl 0 ps 0
  (if ps = PACKET_SIZE_1024 then STX else SOH) :: seqByteAt i :: (0xff - seqByteAt i) ::
    (pl ++ [crc / 256, crc % 256])

/-- Marker byte of a packet. -/
def marker (p : List Nat) : Nat := p.getD 0 0

/-- Sequence byte of a packet. -/
def seqNum (p : List Nat) : Nat := p.getD 1 0

/-- Sequence-complement byte of a packet. -/
def seqComp (p : List Nat) : Nat := p.getD 2 0

/-- Payload region of a packet: the bytes after the 3-byte header and before
the 2-byte CRC trailer. -/
def payloadRegion (p : List Nat) : List Nat := (p.drop 3).take (p.length - 5)

/-- Parse the filename back out of a header payload: the bytes before the
first NUL. -/
def headerName (payload : List Nat) : List Nat :=
  payload.takeWhile (fun x => x != 0)

/-- Decimal value of a list of ASCII digit bytes. -/
def parseDec (ds : List Nat) : Nat :=
  ds.foldl (fun a d => 10 * a + (d - 48)) 0

/-- Parse the filesize back out of a header payload: the decimal text between
the NUL after the filename and the following space. -/
def headerSize (payload : List Nat) : Nat :=
  parseDec ((payload.drop ((headerName payload).length + 1)).takeWhile (fun x => x != 32))

/-- Session state of the transfer driver: the closure variables of
`transfer` that `readData` mutates, plus `resolved`, which counts how many
times the promise's `resolve` has been invoked. -/
structure YState where
  seq : Nat
  session : Bool
  sending : Bool
  finished : Bool
  writtenBytes : Nat
  preChar : Nat
  resolved : Nat
  deriving Repr, DecidableEq

/-- Immutable per-transfer data: the packet queue `file_trunks` and
`totalBytes`. -/
structure YConfig where
  file_trunks : List (List Nat)
  totalBytes : Nat

/-- The source's `finish()`: resolves the promise unless already finished,
then sets the `finished` flag. -/
def finish (s : YState) : YState :=
  { s with
    resolved := if s.finished then s.resolved else s.resolved + 1
    finished := true }

/-- The source's `close()`: clears the session flags and finishes.  (In the
source `reader.locked` is not a property of a stream reader, so the
non-cancelling branch runs and `finish` is called synchronously.) -/
def close (s : YState) : YState :=
  finish { s with session := false, sending := false }

/-- Bytes written by the source's `sendPacket()`: the packet at the cursor
when one remains, the bare EOT byte when past the queue while `sending`. -/
def sendPacket (cfg : YConfig) (s : YState) : List (List Nat) :=
  if s.seq < cfg.file_trunks.length then [cfg.file_trunks.getD s.seq []]
  else if s.sending then [[EOT]] else []

/-- One iteration of the source's per-byte handler inside `readData`
(the body guarded by `if (!finished)`), returning the new state and the
buffers written. -/
def processByte (cfg : YConfig) (s : YState) (ch : Nat) : YState × List (List Nat) :=
  if s.finished then (s, []) else
  if ch = CRC16 then
    if cfg.file_trunks.length ≤ s.seq then
      ({ s with preChar := ch }, [eot_pack])
    else if s.preChar ≠ CRC16 then
      ({ s with sending := true, preChar := ch }, sendPacket cfg s)
    else
      ({ s with preChar := ch }, [])
  else if ch = ACK then
    let s1 := if s.session then s else close s
    if s1.sending then
      if s1.seq = 0 then
        ({ s1 with seq := 1, preChar := ch }, [])
      else if s1.seq < cfg.file_trunks.length then
        let w :=
          if s1.writtenBytes < cfg.totalBytes then
            let w0 := (s1.seq + 1) * PACKET_SIZE_1024
            if cfg.totalBytes < w0 then cfg.totalBytes else w0
          else s1.writtenBytes
        let s2 := { s1 with writtenBytes := w, seq := s1.seq + 1, preChar := ch }
        (s2, sendPacket cfg s2)
      else
        ({ s1 with sending := false, session := false, preChar := ch }, [eot_pack])
    else
      ({ s1 with preChar := ch }, [])
  else if ch = NAK then
    ({ s with preChar := ch }, sendPacket cfg s)
  else if ch = CA then
    ({ close s with preChar := ch }, [])
  else
    ({ s with preChar := ch }, [])

/-- Process a list of inbound bytes in order, accumulating the writes. -/
def processBytes (cfg : YConfig) (s : YState) (bytes : List Nat) :
    YState × List (List Nat) :=
  bytes.foldl (fun acc ch =>
    let r := processByte cfg acc.1 ch
    (r.1, acc.2 ++ r.2)) (s, [])

/-- State of the driver when `readData` starts: `session` has just been set
to true, everything else is zero/false. -/
def initState : YState :=
  { seq := 0, session := true, sending := false, finished := false,
    writtenBytes := 0, preChar := 0, resolved := 0 }

/-- Run the inbound loop on a full trace of received bytes; when the stream
then reports `done` the source merely breaks the loop and releases the
reader, so the state after the trace is the final state. -/
def runSession (cfg : YConfig) (incoming : List Nat) : YState × List (List Nat) :=
  processBytes cfg initState incoming



/-- Statement of the amended claim C7: effect of an ACK received mid-stream
(armed, cursor strictly between 0 and the queue length): the written-byte
total becomes `min((seq+1)*1024, totalBytes)` when still below the total
(unchanged otherwise), the cursor advances, the next transmission is the
packet at the new cursor (or the bare EOT byte when the queue is
exhausted), and the total never exceeds `totalBytes`. -/
def ackAdvanceOk (cfg : YConfig) (s : YState) : Prop :=
  (processByte cfg s ACK).1.writtenBytes
      = (if s.writtenBytes < cfg.totalBytes
          then min ((s.seq + 1) * 1024) cfg.totalBytes else s.writtenBytes) ∧
  (processByte cfg s ACK).1.seq = s.seq + 1 ∧
  (processByte cfg s ACK).2
      = (if s.seq + 1 < cfg.file_trunks.length
          then [cfg.file_trunks.getD (s.seq + 1) []] else [[EOT]]) ∧
  (processByte cfg s ACK).1.writtenBytes ≤ cfg.totalBytes

/-- Statement of the amended claim C8: the `eot_pack` filler frame is a full
133-byte frame whose first byte is SOH (the null-header frame), and it is
what the driver writes when a poll arrives with the cursor at or past the
queue length, and when the ACK of the final data packet arrives. -/
def eotPackOk (cfg : YConfig) (s : YState) : Prop :=
  eot_pack.length = 133 ∧
  eot_pack.getD 0 0 = SOH ∧
  (processByte cfg s CRC16).2 = [eot_pack] ∧
  (s.session = true → s.sending = true → 0 < s.seq →
    (processByte cfg s ACK).2 = [eot_pack])

/-- Statement of the amended claim C5: header packet layout (marker SOH,
sequence 0, complement 0xFF, 133 bytes total), payload carrying filename,
NUL, decimal size text, space, and zero padding, CRC of the full 128-byte
payload stored big-endian, and parse-back of filename and filesize. -/
def headerOk (fn : List Nat) (size : Nat) : Prop :=
  marker (makeFileHeader fn size) = SOH ∧
  seqNum (makeFileHeader fn size) = 0 ∧
  seqComp (makeFileHeader fn size) = 0xff ∧
  (makeFileHeader fn size).length = 133 ∧
  payloadRegion (makeFileHeader fn size)
    = fn ++ [0] ++ decBytes size ++ [0x20]
      ++ List.replicate (126 - fn.length - (decBytes size).length) 0 ∧
  (makeFileHeader fn size).getD 131 0
    = crc16xmodem (payloadRegion (makeFileHeader fn size)) 0 128 0 / 256 ∧
  (makeFileHeader fn size).getD 132 0
    = crc16xmodem (payloadRegion (makeFileHeader fn size)) 0 128 0 % 256 ∧
  headerName (payloadRegion (makeFileHeader fn size)) = fn ∧
  headerSize (payloadRegion (makeFileHeader fn size)) = size

/-- Statement of the amended claim C6: for a 0-byte file the header payload
carries the filename, a NUL, and only zero padding (the size field is left
empty), `splitFile` yields no data packets, and after the header is sent
and acknowledged the very next poll triggers the terminal frame. -/
def headerZeroOk (fn : List Nat) : Prop :=
  payloadRegion (makeFileHeader fn 0) = fn ++ [0] ++ List.replicate (127 - fn.length) 0 ∧
  splitFile [] = [] ∧
  (runSession ⟨[makeFileHeader fn 0], 0⟩ [CRC16, ACK, CRC16]).2
    = [makeFileHeader fn 0, eot_pack] ∧
  (runSession ⟨[makeFileHeader fn 0], 0⟩ [CRC16, ACK, CRC16]).1.seq = 1

/-- Statement of claim C2 for packet index `i`: full layout of the `i`-th
data packet (marker vs payload-region size, sequence byte, complement,
0x1A-padded payload carrying the file slice, big-endian CRC trailer over
the payload region only). -/
def packetLayoutOk (buffer : List Nat) (i : Nat) : Prop :=
  ((splitFile buffer).getD i []).length
      = (payloadRegion ((splitFile buffer).getD i [])).length + 5 ∧
  (marker ((splitFile buffer).getD i []) = STX
    ↔ (payloadRegion ((splitFile buffer).getD i [])).length = 1024) ∧
  (marker ((splitFile buffer).getD i []) = SOH
    ↔ (payloadRegion ((splitFile buffer).getD i [])).length = 128) ∧
  seqNum ((splitFile buffer).getD i []) = (i + 1) % 256 ∧
  seqComp ((splitFile buffer).getD i []) = 0xff - seqNum ((splitFile buffer).getD i []) ∧
  payloadRegion ((splitFile buffer).getD i [])
    = dataSeg buffer i
      ++ List.replicate ((payloadRegion ((splitFile buffer).getD i [])).length
          - (dataSeg buffer i).length) 0x1A ∧
  ((splitFile buffer).getD i []).getD (((splitFile buffer).getD i []).length - 2) 0
    = crc16xmodem (payloadRegion ((splitFile buffer).getD i [])) 0
        (payloadRegion ((splitFile buffer).getD i [])).length 0 / 256 ∧
  ((splitFile buffer).getD i []).getD (((splitFile buffer).getD i []).length - 1) 0
    = crc16xmodem (payloadRegion ((splitFile buffer).getD i [])) 0
        (payloadRegion ((splitFile buffer).getD i [])).length 0 % 256

/-- Statement of claim C3: packet count and sizes: the number of file bytes
carried by each packet (`dataSeg`) and the payload-region frame size. -/
def chunkSizesOk (buffer : List Nat) : Prop :=
  (splitFile buffer).length = (buffer.length + 1023) / 1024 ∧
  ∀ i, i < (splitFile buffer).length →
    (i + 1 < (splitFile buffer).length →
      (dataSeg buffer i).length = 1024 ∧
      (payloadRegion ((splitFile buffer).getD i [])).length = 1024) ∧
    (i + 1 = (splitFile buffer).length →
      (buffer.length % 1024 = 0 →
        (dataSeg buffer i).length = 1024 ∧
        (payloadRegion ((splitFile buffer).getD i [])).length = 1024) ∧
      (buffer.length % 1024 ≠ 0 →
        (dataSeg buffer i).length = buffer.length % 1024 ∧
        (payloadRegion ((splitFile buffer).getD i [])).length
          = if buffer.length % 1024 ≤ 128 then 128 else 1024))

theorem xor_shiftLeft_distrib (a b n : Nat) :
    (a ^^^ b) <<< n = (a <<< n) ^^^ (b <<< n) := by
  apply Nat.eq_of_testBit_eq
  intro i
  simp only [Nat.testBit_shiftLeft, Nat.testBit_xor]
  cases hd : decide (i ≥ n) <;> simp

theorem and_ffff (x : Nat) : x &&& 65535 = x % 65536 := by
  have h := Nat.and_pow_two_sub_one_eq_mod x 16
  norm_num at h
  exact h

theorem and_ff (x : Nat) : x &&& 255 = x % 256 := by
  have h := Nat.and_pow_two_sub_one_eq_mod x 8
  norm_num at h
  exact h

theorem crcStep_xor (a d : Nat) (hd : d < 32768) :
    crcStep (a ^^^ d) = crcStep a ^^^ (d <<< 1) := by
  have hbit : (a ^^^ d).testBit 15 = a.testBit 15 := by
    have hdf : d.testBit 15 = false :=
      Nat.testBit_eq_false_of_lt (by norm_num; omega)
    simp [Nat.testBit_xor, hdf]
  have hd1 : d <<< 1 < 65536 := by rw [Nat.shiftLeft_eq]; omega
  have hmask : ((a ^^^ d) <<< 1) &&& 65535 = ((a <<< 1) &&& 65535) ^^^ (d <<< 1) := by
    rw [xor_shiftLeft_distrib, Nat.and_xor_distrib_right]
    congr 1
    rw [and_ffff, Nat.mod_eq_of_lt hd1]
  unfold crcStep
  rw [hbit]
  cases h15 : a.testBit 15 with
  | false =>
    rw [if_neg (by simp [h15]), if_neg (by simp [h15])]
    exact hmask
  | true =>
    rw [if_pos rfl, if_pos rfl, Nat.and_xor_distrib_right, Nat.and_xor_distrib_right, hmask,
      Nat.xor_assoc, Nat.xor_assoc, Nat.xor_comm (d <<< 1) (4129 &&& 65535)]

theorem crcStep_iterate_xor (k : Nat) :
    ∀ a d : Nat, d * 2 ^ k < 65536 →
      crcStep^[k] (a ^^^ d) = (crcStep^[k] a) ^^^ (d <<< k) := by
  induction k with
  | zero => intro a d h; simp
  | succ k ih =>
    intro a d h
    have hpow : 1 ≤ 2 ^ k := Nat.one_le_two_pow
    have h2 : d * 2 * 2 ^ k < 65536 := by
      calc d * 2 * 2 ^ k = d * 2 ^ (k + 1) := by ring
        _ < 65536 := h
    have hd : d < 32768 := by
      have hle := Nat.mul_le_mul_left (d * 2) hpow
      omega
    have hnext : (d <<< 1) * 2 ^ k < 65536 := by
      rw [Nat.shiftLeft_eq]
      calc d * 2 ^ 1 * 2 ^ k = d * 2 * 2 ^ k := by ring
        _ < 65536 := h2
    have hsh : d <<< 1 <<< k = d <<< (k + 1) := by
      rw [Nat.shiftLeft_eq, Nat.shiftLeft_eq, Nat.shiftLeft_eq]
      ring
    rw [Function.iterate_succ_apply, Function.iterate_succ_apply,
      crcStep_xor a d hd, ih (crcStep a) (d <<< 1) hnext, hsh]

theorem mixByte_eq_mask (crc b : Nat) :
    mixByte crc b =
      ((crc <<< 8) &&& 0xffff) ^^^ mixCode (((crc >>> 8) &&& 0xff) ^^^ (b &&& 0xff)) := by
  simp only [mixByte, mixCode]
  simp [Nat.xor_assoc]

set_option maxRecDepth 4096 in
theorem mixCode_eq_table : ∀ c : Nat, c < 256 → mixCode c = crcStep^[8] (c <<< 8) := by
  decide

theorem xor_lt_65536 (x y : Nat) (hx : x < 65536) (hy : y < 65536) : x ^^^ y < 65536 := by
  have h := Nat.xor_lt_two_pow (x := x) (y := y) (n := 16) (by norm_num; omega) (by norm_num; omega)
  norm_num at h
  omega

theorem and_ffff_lt (x : Nat) : x &&& 65535 < 65536 := by
  rw [and_ffff]; exact Nat.mod_lt _ (by norm_num)

theorem and_ff_lt (x : Nat) : x &&& 255 < 256 := by
  rw [and_ff]; exact Nat.mod_lt _ (by norm_num)

theorem mixCode_lt (z : Nat) (hz : z < 256) : mixCode z < 65536 := by
  have hz4 : z >>> 4 < 256 := by
    rw [Nat.shiftRight_eq_div_pow]
    exact Nat.lt_of_le_of_lt (Nat.div_le_self _ _) hz
  have h1 : z ^^^ (z >>> 4) < 65536 := by
    have h := Nat.xor_lt_two_pow (x := z) (y := z >>> 4) (n := 8)
      (by norm_num; omega) (by norm_num; omega)
    norm_num at h
    omega
  simp only [mixCode]
  exact xor_lt_65536 _ _ (xor_lt_65536 _ _ h1 (and_ffff_lt _)) (and_ffff_lt _)

theorem mixByte_lt (crc b : Nat) : mixByte crc b < 65536 := by
  rw [mixByte_eq_mask]
  have hc0 : ((crc >>> 8) &&& 0xff) ^^^ (b &&& 0xff) < 256 := by
    have h := Nat.xor_lt_two_pow (x := (crc >>> 8) &&& 0xff) (y := b &&& 0xff) (n := 8)
      (by have := and_ff_lt (crc >>> 8); norm_num; omega)
      (by have := and_ff_lt b; norm_num; omega)
    norm_num at h
    omega
  exact xor_lt_65536 _ _ (and_ffff_lt _) (mixCode_lt _ hc0)

theorem mixByte_eq_crcRefByte (crc b : Nat) (hc : crc < 65536) (hb : b < 256) :
    mixByte crc b = crcRefByte crc b := by
  have hhi : crc >>> 8 < 256 := by
    rw [Nat.shiftRight_eq_div_pow]; norm_num; omega
  have hhim : (crc >>> 8) &&& 255 = crc >>> 8 := by rw [and_ff, Nat.mod_eq_of_lt hhi]
  have hbm : b &&& 255 = b := by rw [and_ff, Nat.mod_eq_of_lt hb]
  have hlo : crc &&& 255 < 256 := and_ff_lt crc
  have hcc : (crc >>> 8) ^^^ b < 256 := by
    have h := Nat.xor_lt_two_pow (x := crc >>> 8) (y := b) (n := 8)
      (by norm_num; omega) (by norm_num; omega)
    norm_num at h
    omega
  have hsplit : crc ^^^ (b <<< 8) = (((crc >>> 8) ^^^ b) <<< 8) ^^^ (crc &&& 255) := by
    apply Nat.eq_of_testBit_eq
    intro i
    rcases Nat.lt_or_ge i 8 with h8 | h8
    · have hge : decide (i ≥ 8) = false := decide_eq_false (by omega)
      have h255 : Nat.testBit 255 i = true := by
        have h2 : (255 : Nat) = 2 ^ 8 - 1 := by norm_num
        rw [h2, Nat.testBit_two_pow_sub_one]
        exact decide_eq_true h8
      simp [Nat.testBit_xor, Nat.testBit_shiftLeft, Nat.testBit_and, hge, h255]
    · have hge : decide (i ≥ 8) = true := decide_eq_true h8
      have h255 : Nat.testBit 255 i = false := by
        have h2 : (255 : Nat) = 2 ^ 8 - 1 := by norm_num
        rw [h2, Nat.testBit_two_pow_sub_one]
        exact decide_eq_false (by omega)
      have hidx : 8 + (i - 8) = i := by omega
      simp [Nat.testBit_xor, Nat.testBit_shiftLeft, Nat.testBit_shiftRight,
        Nat.testBit_and, hge, h255, hidx]
  have hmm : (crc * 256) % 65536 = (crc % 256) * 256 := by
    rw [show (65536 : Nat) = 256 * 256 from rfl, Nat.mul_mod_mul_right]
  have hmask8 : (crc <<< 8) &&& 65535 = (crc &&& 255) <<< 8 := by
    calc (crc <<< 8) &&& 65535 = (crc * 256) % 65536 := by
          rw [Nat.shiftLeft_eq, and_ffff]
      _ = (crc % 256) * 256 := hmm
      _ = (crc &&& 255) <<< 8 := by rw [Nat.shiftLeft_eq, and_ff]
  calc mixByte crc b
      = ((crc <<< 8) &&& 65535) ^^^ mixCode (((crc >>> 8) &&& 255) ^^^ (b &&& 255)) :=
        mixByte_eq_mask crc b
    _ = ((crc &&& 255) <<< 8) ^^^ mixCode ((crc >>> 8) ^^^ b) := by rw [hmask8, hhim, hbm]
    _ = ((crc &&& 255) <<< 8) ^^^ crcStep^[8] (((crc >>> 8) ^^^ b) <<< 8) := by
        rw [mixCode_eq_table _ hcc]
    _ = crcStep^[8] ((((crc >>> 8) ^^^ b) <<< 8) ^^^ (crc &&& 255)) := by
        rw [crcStep_iterate_xor 8 (((crc >>> 8) ^^^ b) <<< 8) (crc &&& 255)
          (by norm_num; omega)]
        exact Nat.xor_comm _ _
    _ = crcStep^[8] (crc ^^^ (b <<< 8)) := by rw [hsplit]
    _ = crcRefByte crc b := rfl

theorem foldl_mixByte_eq_ref (bytes : List Nat) :
    (∀ x ∈ bytes, x < 256) → ∀ s : Nat, s < 65536 →
      bytes.foldl mixByte s = bytes.foldl crcRefByte s ∧ bytes.foldl mixByte s < 65536 := by
  induction bytes with
  | nil => intro _ s hs; exact ⟨rfl, hs⟩
  | cons x xs ih =>
    intro hmem s hs
    have hx : x < 256 := hmem x (by simp)
    have hxs : ∀ y ∈ xs, y < 256 := fun y hy => hmem y (by simp [hy])
    simp only [List.foldl_cons]
    obtain ⟨he, hb2⟩ := ih hxs (mixByte s x) (mixByte_lt s x)
    exact ⟨by rw [he, mixByte_eq_crcRefByte s x hs hx], hb2⟩

theorem crc16xmodem_eq_foldl (len : Nat) :
    ∀ (p : List Nat) (start prev : Nat), start + len ≤ p.length →
      crc16xmodem p start len prev = ((p.drop start).take len).foldl mixByte prev := by
  induction len with
  | zero => intro p start prev _; simp [crc16xmodem]
  | succ n ih =>
    intro p start prev h
    have hs : start < p.length := by omega
    have hgetD : p.getD start 0 = p[start] := by
      rw [List.getD_eq_getElem?_getD, List.getElem?_eq_getElem hs]
      rfl
    rw [show crc16xmodem p start (n + 1) prev
        = crc16xmodem p (start + 1) n (mixByte prev (p.getD start 0)) from rfl]
    rw [ih p (start + 1) _ (by omega), List.drop_eq_getElem_cons hs, List.take_succ_cons,
      List.foldl_cons, hgetD]

/-- C1: for every byte buffer and every in-range `begin`/`len` slice, the
source's `crc16xmodem` with seed 0 computes the textbook CRC16/XMODEM
(polynomial 0x1021, no reflection) of that slice and fits in 16 bits; an
empty range yields 0, and the ASCII bytes of the digit string one to nine
yield the published checksum 0x31C3. -/
theorem claim1_crc16_correct (buffer : List Nat) (hb : ∀ x ∈ buffer, x < 256)
    (start len : Nat) (h : start + len ≤ buffer.length) :
    crc16xmodem buffer start len 0 = crcRef ((buffer.drop start).take len) ∧
    crc16xmodem buffer start len 0 < 65536 ∧
    crc16xmodem buffer start 0 0 = 0 ∧
    crc16xmodem [49, 50, 51, 52, 53, 54, 55, 56, 57] 0 9 0 = 0x31C3 := by
  have hwin : ∀ x ∈ (buffer.drop start).take len, x < 256 := fun x hx =>
    hb x (List.mem_of_mem_drop (List.mem_of_mem_take hx))
  obtain ⟨he, hlt⟩ := foldl_mixByte_eq_ref _ hwin 0 (by norm_num)
  refine ⟨?_, ?_, rfl, by decide⟩
  · rw [crc16xmodem_eq_foldl len buffer start 0 h, he]; rfl
  · rw [crc16xmodem_eq_foldl len buffer start 0 h]; exact hlt

/-- Witness for C1 at a concrete buffer: the ASCII digits one to nine. -/
theorem claim1_witness :
    (∀ x ∈ ([49, 50, 51, 52, 53, 54, 55, 56, 57] : List Nat), x < 256) ∧
    0 + 9 ≤ ([49, 50, 51, 52, 53, 54, 55, 56, 57] : List Nat).length ∧
    (crc16xmodem [49, 50, 51, 52, 53, 54, 55, 56, 57] 0 9 0
        = crcRef ((([49, 50, 51, 52, 53, 54, 55, 56, 57] : List Nat).drop 0).take 9) ∧
      crc16xmodem [49, 50, 51, 52, 53, 54, 55, 56, 57] 0 9 0 < 65536 ∧
      crc16xmodem [49, 50, 51, 52, 53, 54, 55, 56, 57] 0 0 0 = 0 ∧
      crc16xmodem [49, 50, 51, 52, 53, 54, 55, 56, 57] 0 9 0 = 0x31C3) :=
  ⟨by decide, by decide,
    claim1_crc16_correct [49, 50, 51, 52, 53, 54, 55, 56, 57] (by decide) 0 9 (by decide)⟩


theorem set_append_len {α : Type} (l₁ l₂ : List α) (k : Nat) (x : α) :
    (l₁ ++ l₂).set (l₁.length + k) x = l₁ ++ l₂.set k x := by
  induction l₁ with
  | nil => simp
  | cons a l ih =>
    simp only [List.cons_append, List.length_cons]
    have h : l.length + 1 + k = l.length + k + 1 := by omega
    rw [h, List.set_cons_succ, ih]

theorem drop3 {α : Type} (a b c : α) (l : List α) (k : Nat) :
    (a :: b :: c :: l).drop (3 + k) = l.drop k := by
  have h : 3 + k = k + 1 + 1 + 1 := by omega
  rw [h]
  rfl

theorem set3 {α : Type} (a b c : α) (l : List α) (k : Nat) (x : α) :
    (a :: b :: c :: l).set (3 + k) x = a :: b :: c :: l.set k x := by
  have h : 3 + k = k + 1 + 1 + 1 := by omega
  rw [h]
  rfl

theorem getD3 {α : Type} (a b c : α) (l : List α) (k : Nat) (d : α) :
    (a :: b :: c :: l).getD (3 + k) d = l.getD k d := by
  have h : 3 + k = k + 1 + 1 + 1 := by omega
  rw [h]
  rfl

theorem seg_eq (src : List Nat) (s ps cap : Nat) (hcap : ps ≤ cap) :
    ((src.take (s + ps)).drop s).take cap = (src.drop s).take ps := by
  rw [List.drop_take]
  have h : s + ps - s = ps := by omega
  rw [h, List.take_take, Nat.min_eq_right hcap]

theorem replicate_sets (ps m sq cp f : Nat) :
    (((List.replicate (ps + 3 + 2) f).set 0 m).set 1 sq).set 2 cp
      = m :: sq :: cp :: List.replicate (ps + 2) f := by
  have h : ps + 3 + 2 = ps + 2 + 1 + 1 + 1 := by omega
  rw [h, List.replicate_succ, List.replicate_succ, List.replicate_succ]
  simp

theorem jsCopy_shape (m sq cp f ps s : Nat) (src : List Nat) :
    jsCopy (m :: sq :: cp :: List.replicate (ps + 2) f) 3 src s (s + ps)
      = m :: sq :: cp ::
          ((src.drop s).take ps
            ++ List.replicate (ps + 2 - ((src.drop s).take ps).length) f) := by
  simp only [jsCopy]
  have hcap : (m :: sq :: cp :: List.replicate (ps + 2) f).length - 3 = ps + 2 := by
    simp
  rw [hcap, seg_eq src s ps (ps + 2) (by omega), drop3, List.drop_replicate]
  rfl

theorem pad_split (seg : List Nat) (ps f : Nat) (h : seg.length ≤ ps) :
    seg ++ List.replicate (ps + 2 - seg.length) f
      = (seg ++ List.replicate (ps - seg.length) f) ++ [f, f] := by
  rw [List.append_assoc]
  congr 1
  have h2 : ps + 2 - seg.length = (ps - seg.length) + 2 := by omega
  rw [h2, List.replicate_add]
  rfl

theorem chunk_len_sub (m sq cp f1 f2 : Nat) (pl : List Nat) :
    (m :: sq :: cp :: (pl ++ [f1, f2])).length - 2 = 3 + pl.length := by
  simp
  omega

theorem writeUInt16BE_append (m sq cp f1 f2 v : Nat) (pl : List Nat) :
    writeUInt16BE (m :: sq :: cp :: (pl ++ [f1, f2])) (3 + pl.length) v
      = m :: sq :: cp :: (pl ++ [(v >>> 8) &&& 0xff, v &&& 0xff]) := by
  unfold writeUInt16BE
  rw [set3]
  have h1 := set_append_len pl [f1, f2] 0 ((v >>> 8) &&& 0xff)
  simp only [Nat.add_zero, List.set_cons_zero] at h1
  rw [h1]
  have h2 : 3 + pl.length + 1 = 3 + (pl.length + 1) := by omega
  rw [h2, set3]
  have h3 := set_append_len pl [(v >>> 8) &&& 0xff, f2] 1 (v &&& 0xff)
  simp only [List.set_cons_succ, List.set_cons_zero] at h3
  rw [h3]

theorem crc16_chunk (m sq cp f1 f2 ps : Nat) (pl : List Nat) (hlen : pl.length = ps) :
    crc16xmodem (m :: sq :: cp :: (pl ++ [f1, f2])) 3 ps 0 = crc16xmodem pl 0 ps 0 := by
  rw [crc16xmodem_eq_foldl ps _ 3 0 (by simp; omega),
    crc16xmodem_eq_foldl ps pl 0 0 (by omega)]
  have hdrop : (m :: sq :: cp :: (pl ++ [f1, f2])).drop 3 = pl ++ [f1, f2] := rfl
  rw [hdrop, List.drop_zero, List.take_append_of_le_length (by omega)]

theorem crc16xmodem_lt (len : Nat) :
    ∀ (p : List Nat) (s prev : Nat), prev < 65536 → crc16xmodem p s len prev < 65536 := by
  induction len with
  | zero => intro p s prev h; simpa [crc16xmodem] using h
  | succ n ih =>
    intro p s prev _
    rw [show crc16xmodem p s (n + 1) prev
        = crc16xmodem p (s + 1) n (mixByte prev (p.getD s 0)) from rfl]
    exact ih _ _ _ (mixByte_lt _ _)

theorem writeBE_bytes (v : Nat) (hv : v < 65536) :
    ((v >>> 8) &&& 0xff) = v / 256 ∧ (v &&& 0xff) = v % 256 := by
  constructor
  · rw [and_ff, Nat.shiftRight_eq_div_pow]
    norm_num
    omega
  · exact and_ff v

theorem dataSeg_len_le (buffer : List Nat) (i : Nat) :
    (dataSeg buffer i).length ≤ packSizeAt buffer.length i := by
  simp [dataSeg]

theorem payloadAt_len (buffer : List Nat) (i : Nat) :
    (payloadAt buffer i).length = packSizeAt buffer.length i := by
  have h := dataSeg_len_le buffer i
  simp [payloadAt]
  omega

theorem splitChunk_eq (buffer : List Nat) (i : Nat) :
    splitChunk buffer i (maxPack buffer.length) = cleanPack buffer i := by
  simp only [splitChunk]
  rw [show (if i + 1 = maxPack buffer.length ∧ buffer.length - i * PACKET_SIZE_1024 ≤ 128
      then PACKET_SIZE_128 else PACKET_SIZE_1024) = packSizeAt buffer.length i from rfl]
  rw [show (if i + 1 = maxPack buffer.length then (0x1A : Nat) else 0x00)
      = fillAt buffer.length i from rfl]
  rw [and_ff (i + 1)]
  rw [show (i + 1) % 256 = seqByteAt i from rfl]
  rw [replicate_sets, jsCopy_shape]
  rw [show (buffer.drop (PACKET_SIZE_1024 * i)).take (packSizeAt buffer.length i)
      = dataSeg buffer i from rfl]
  rw [pad_split (dataSeg buffer i) (packSizeAt buffer.length i) (fillAt buffer.length i)
      (dataSeg_len_le buffer i)]
  rw [show dataSeg buffer i
      ++ List.replicate (packSizeAt buffer.length i - (dataSeg buffer i).length)
        (fillAt buffer.length i)
      = payloadAt buffer i from rfl]
  rw [chunk_len_sub, writeUInt16BE_append]
  rw [crc16_chunk _ _ _ _ _ _ _ (payloadAt_len buffer i)]
  rw [(writeBE_bytes _ (crc16xmodem_lt _ _ _ _ (by norm_num))).1,
    (writeBE_bytes _ (crc16xmodem_lt _ _ _ _ (by norm_num))).2]
  rfl

theorem splitFile_eq (buffer : List Nat) :
    splitFile buffer = (List.range (maxPack buffer.length)).map (cleanPack buffer) := by
  unfold splitFile
  apply List.map_congr_left
  intro i _
  exact splitChunk_eq buffer i

theorem getD_splitFile (buffer : List Nat) (i : Nat) (hi : i < maxPack buffer.length) :
    (splitFile buffer).getD i [] = cleanPack buffer i := by
  rw [splitFile_eq]
  have hlen : i < ((List.range (maxPack buffer.length)).map (cleanPack buffer)).length := by
    simpa using hi
  rw [List.getD_eq_getElem?_getD, List.getElem?_eq_getElem hlen]
  simp

theorem payloadRegion_shape (m sq cp h l : Nat) (pl : List Nat) :
    payloadRegion (m :: sq :: cp :: (pl ++ [h, l])) = pl := by
  unfold payloadRegion
  have hdrop : (m :: sq :: cp :: (pl ++ [h, l])).drop 3 = pl ++ [h, l] := rfl
  have hlen : (m :: sq :: cp :: (pl ++ [h, l])).length - 5 = pl.length := by
    simp
  rw [hdrop, hlen, List.take_append_of_le_length (Nat.le_refl _), List.take_length]

theorem cleanPack_shape (buffer : List Nat) (i : Nat) :
    cleanPack buffer i
      = (if packSizeAt buffer.length i = PACKET_SIZE_1024 then STX else SOH) :: seqByteAt i ::
          (0xff - seqByteAt i) ::
          (payloadAt buffer i ++
            [crc16xmodem (payloadAt buffer i) 0 (packSizeAt buffer.length i) 0 / 256,
              crc16xmodem (payloadAt buffer i) 0 (packSizeAt buffer.length i) 0 % 256]) := rfl

theorem payloadRegion_cleanPack (buffer : List Nat) (i : Nat) :
    payloadRegion (cleanPack buffer i) = payloadAt buffer i := by
  rw [cleanPack_shape]
  exact payloadRegion_shape _ _ _ _ _ _

theorem trailer_getD (m sq cp h l : Nat) (pl : List Nat) :
    (m :: sq :: cp :: (pl ++ [h, l])).getD ((m :: sq :: cp :: (pl ++ [h, l])).length - 2) 0 = h
    ∧ (m :: sq :: cp :: (pl ++ [h, l])).getD ((m :: sq :: cp :: (pl ++ [h, l])).length - 1) 0
        = l := by
  have hlen2 : (m :: sq :: cp :: (pl ++ [h, l])).length - 2 = 3 + pl.length :=
    chunk_len_sub m sq cp h l pl
  have hlen1 : (m :: sq :: cp :: (pl ++ [h, l])).length - 1 = 3 + (pl.length + 1) := by
    simp
    omega
  constructor
  · rw [hlen2, getD3, List.getD_append_right _ _ _ _ (Nat.le_refl _)]
    simp
  · rw [hlen1, getD3, List.getD_append_right _ _ _ _ (by omega)]
    have hone : pl.length + 1 - pl.length = 1 := by omega
    rw [hone]
    rfl

theorem notlast_full (L i : Nat) (hi : i < maxPack L) (hl : i + 1 ≠ maxPack L) :
    PACKET_SIZE_1024 * i + PACKET_SIZE_1024 ≤ L ∧ packSizeAt L i = PACKET_SIZE_1024 := by
  constructor
  · unfold maxPack PACKET_SIZE_1024 at *
    omega
  · unfold packSizeAt
    rw [if_neg (fun hc => hl hc.1)]

theorem payloadAt_pad (buffer : List Nat) (i : Nat) (hi : i < maxPack buffer.length) :
    payloadAt buffer i = dataSeg buffer i
      ++ List.replicate (packSizeAt buffer.length i - (dataSeg buffer i).length) 0x1A := by
  by_cases hl : i + 1 = maxPack buffer.length
  · unfold payloadAt fillAt
    rw [if_pos hl]
  · obtain ⟨hfull, hps⟩ := notlast_full buffer.length i hi hl
    have hseg : (dataSeg buffer i).length = packSizeAt buffer.length i := by
      simp [dataSeg, List.length_take, hps]
      unfold PACKET_SIZE_1024 at *
      omega
    have hz : packSizeAt buffer.length i - (dataSeg buffer i).length = 0 := by
      rw [hseg]
      omega
    unfold payloadAt
    rw [hz]
    simp

theorem cleanPack_length (buffer : List Nat) (i : Nat) :
    (cleanPack buffer i).length = packSizeAt buffer.length i + 5 := by
  rw [cleanPack_shape]
  simp [payloadAt_len]

theorem splitFile_length (buffer : List Nat) :
    (splitFile buffer).length = maxPack buffer.length := by
  simp [splitFile]

/-- C2: layout of every data packet produced by `splitFile`: marker STX
exactly when the payload region is 1024 bytes and SOH exactly when it is
128; sequence byte `(i+1) mod 256`; complement `0xFF` minus it; payload is
the carried file slice right-padded with 0x1A; and the last two bytes are
the big-endian CRC16 of the payload region only. -/
theorem claim2_packet_layout (buffer : List Nat) (i : Nat)
    (hi : i < (splitFile buffer).length) : packetLayoutOk buffer i := by
  rw [splitFile_length] at hi
  unfold packetLayoutOk
  rw [getD_splitFile buffer i hi, payloadRegion_cleanPack, payloadAt_len]
  have hps : packSizeAt buffer.length i = PACKET_SIZE_128
      ∨ packSizeAt buffer.length i = PACKET_SIZE_1024 := by
    unfold packSizeAt
    split
    · exact Or.inl rfl
    · exact Or.inr rfl
  have hm : marker (cleanPack buffer i)
      = if packSizeAt buffer.length i = PACKET_SIZE_1024 then STX else SOH := rfl
  refine ⟨cleanPack_length buffer i, ?_, ?_, rfl, rfl, payloadAt_pad buffer i hi, ?_, ?_⟩
  · rw [hm]
    rcases hps with h | h <;>
      simp [h, STX, SOH, PACKET_SIZE_128, PACKET_SIZE_1024]
  · rw [hm]
    rcases hps with h | h <;>
      simp [h, STX, SOH, PACKET_SIZE_128, PACKET_SIZE_1024]
  · rw [cleanPack_shape]
    exact (trailer_getD _ _ _ _ _ _).1
  · rw [cleanPack_shape]
    exact (trailer_getD _ _ _ _ _ _).2

/-- Witness for C2 at a concrete one-byte buffer. -/
theorem claim2_witness : 0 < (splitFile [5]).length ∧ packetLayoutOk [5] 0 :=
  ⟨by decide, claim2_packet_layout [5] 0 (by decide)⟩

/-- C3: `splitFile` produces `ceil(L/1024)` packets; every packet carries
1024 file bytes except the last, which carries `L mod 1024` bytes when that
remainder is nonzero (inside a 128-byte frame when the remainder is at most
128, a 1024-byte frame otherwise), and a full 1024 bytes when `L` is an
exact multiple of 1024. -/
theorem claim3_chunk_sizes (buffer : List Nat) (hL : 0 < buffer.length) :
    chunkSizesOk buffer := by
  unfold chunkSizesOk
  rw [splitFile_length]
  have hMP : maxPack buffer.length = (buffer.length + 1023) / 1024 := by
    unfold maxPack PACKET_SIZE_1024
    omega
  refine ⟨hMP, ?_⟩
  intro i hi
  rw [getD_splitFile buffer i hi, payloadRegion_cleanPack, payloadAt_len]
  have hds : (dataSeg buffer i).length
      = min (packSizeAt buffer.length i) (buffer.length - PACKET_SIZE_1024 * i) := by
    simp [dataSeg, List.length_take]
  constructor
  · intro hlt
    have hne : i + 1 ≠ maxPack buffer.length := by omega
    obtain ⟨hfull, hps⟩ := notlast_full buffer.length i hi hne
    rw [hds, hps]
    rw [show PACKET_SIZE_1024 = 1024 from rfl] at hfull ⊢
    exact ⟨by omega, rfl⟩
  · intro hlast
    have hlast' : i + 1 = (buffer.length + 1023) / 1024 := by omega
    constructor
    · intro hmod
      have hrem : buffer.length - 1024 * i = 1024 := by omega
      have hps : packSizeAt buffer.length i = PACKET_SIZE_1024 := by
        unfold packSizeAt
        rw [if_neg]
        intro hcond
        rw [show PACKET_SIZE_1024 = 1024 from rfl] at hcond
        omega
      rw [hds, hps]
      rw [show PACKET_SIZE_1024 = 1024 from rfl]
      exact ⟨by omega, rfl⟩
    · intro hmod
      have hrem : buffer.length - 1024 * i = buffer.length % 1024 := by omega
      by_cases hc : buffer.length % 1024 ≤ 128
      · have hps : packSizeAt buffer.length i = PACKET_SIZE_128 := by
          unfold packSizeAt
          rw [if_pos ⟨hlast, by rw [show PACKET_SIZE_1024 = 1024 from rfl]; omega⟩]
        rw [hds, hps]
        rw [show PACKET_SIZE_128 = 128 from rfl, show PACKET_SIZE_1024 = 1024 from rfl]
        exact ⟨by omega, by rw [if_pos hc]⟩
      · have hps : packSizeAt buffer.length i = PACKET_SIZE_1024 := by
          unfold packSizeAt
          rw [if_neg]
          intro hcond
          rw [show PACKET_SIZE_1024 = 1024 from rfl] at hcond
          omega
        rw [hds, hps]
        rw [show PACKET_SIZE_1024 = 1024 from rfl]
        exact ⟨by omega, by rw [if_neg hc]⟩

/-- Witness for C3 at a concrete one-byte buffer. -/
theorem claim3_witness : 0 < ([5] : List Nat).length ∧ chunkSizesOk [5] :=
  ⟨by decide, claim3_chunk_sizes [5] (by decide)⟩

theorem payload_flatten_inv (buffer : List Nat) :
    ∀ k, k < maxPack buffer.length →
      ((List.range k).map (payloadAt buffer)).flatten
        = buffer.take (PACKET_SIZE_1024 * k) := by
  intro k
  induction k with
  | zero => intro _; simp
  | succ k ih =>
    intro hk
    have hk' : k < maxPack buffer.length := by omega
    have hne : k + 1 ≠ maxPack buffer.length := by omega
    rw [List.range_succ, List.map_append, List.flatten_append, ih hk']
    simp only [List.map_cons, List.map_nil, List.flatten_cons, List.flatten_nil,
      List.append_nil]
    obtain ⟨hfull, hps⟩ := notlast_full buffer.length k hk' hne
    have hseg_len : (dataSeg buffer k).length = PACKET_SIZE_1024 := by
      have h1 : (dataSeg buffer k).length
          = min (packSizeAt buffer.length k) (buffer.length - PACKET_SIZE_1024 * k) := by
        simp [dataSeg, List.length_take]
      rw [h1, hps]
      rw [show PACKET_SIZE_1024 = 1024 from rfl] at hfull ⊢
      omega
    have hpl : payloadAt buffer k = dataSeg buffer k := by
      unfold payloadAt
      rw [hseg_len, hps]
      simp
    rw [hpl, show dataSeg buffer k
        = (buffer.drop (PACKET_SIZE_1024 * k)).take PACKET_SIZE_1024 from by
          rw [dataSeg, hps]]
    rw [← List.take_add]
    congr 1

/-- C4: concatenating the payload regions of all packets of `splitFile`, in
order, and truncating to the original length gives back the buffer: the
0x1A padding carries no file data. -/
theorem claim4_roundtrip (buffer : List Nat) :
    ((splitFile buffer).map payloadRegion).flatten.take buffer.length = buffer := by
  have hmap : ((List.range (maxPack buffer.length)).map (cleanPack buffer)).map payloadRegion
      = (List.range (maxPack buffer.length)).map (payloadAt buffer) := by
    rw [List.map_map]
    exact List.map_congr_left (fun i _ => payloadRegion_cleanPack buffer i)
  rw [splitFile_eq, hmap]
  by_cases hL : buffer.length = 0
  · have hb : buffer = [] := List.length_eq_zero.mp hL
    subst hb
    simp [maxPack, PACKET_SIZE_1024]
  · obtain ⟨m, hm⟩ : ∃ m, maxPack buffer.length = m + 1 := by
      have : 0 < maxPack buffer.length := by
        unfold maxPack PACKET_SIZE_1024
        omega
      exact ⟨maxPack buffer.length - 1, by omega⟩
    rw [hm, List.range_succ, List.map_append, List.flatten_append,
      payload_flatten_inv buffer m (by omega)]
    simp only [List.map_cons, List.map_nil, List.flatten_cons, List.flatten_nil,
      List.append_nil]
    have hdseg : dataSeg buffer m = buffer.drop (PACKET_SIZE_1024 * m) := by
      rw [dataSeg]
      apply List.take_of_length_le
      simp only [List.length_drop]
      unfold packSizeAt
      rw [hm]
      unfold maxPack at hm
      rw [show PACKET_SIZE_1024 = 1024 from rfl] at hm ⊢
      rw [show PACKET_SIZE_128 = 128 from rfl]
      split_ifs <;> omega
    rw [payloadAt, hdseg, ← List.append_assoc, List.take_append_drop]
    exact List.take_left' rfl


theorem toDecAux_zero (fuel : Nat) : toDecAux fuel 0 = [] := by
  cases fuel <;> rfl

theorem parseDec_append (l : List Nat) (d : Nat) :
    parseDec (l ++ [d]) = 10 * parseDec l + (d - 48) := by
  simp [parseDec, List.foldl_append]

theorem toDecAux_parse : ∀ fuel n : Nat, n ≤ fuel → 0 < n →
    parseDec (toDecAux fuel n) = n := by
  intro fuel
  induction fuel with
  | zero => intro n h1 h2; omega
  | succ fuel ih =>
    intro n h1 h2
    obtain ⟨m, rfl⟩ : ∃ m, n = m + 1 := ⟨n - 1, by omega⟩
    rw [show toDecAux (fuel + 1) (m + 1)
        = toDecAux fuel ((m + 1) / 10) ++ [(m + 1) % 10 + 48] from rfl]
    rw [parseDec_append]
    by_cases h10 : (m + 1) / 10 = 0
    · rw [h10, toDecAux_zero]
      simp [parseDec]
      omega
    · rw [ih ((m + 1) / 10) (by omega) (by omega)]
      omega

theorem toDecAux_digits : ∀ fuel n d : Nat, d ∈ toDecAux fuel n → 48 ≤ d ∧ d ≤ 57 := by
  intro fuel
  induction fuel with
  | zero => intro n d h; simp [toDecAux] at h
  | succ fuel ih =>
    intro n d h
    match n with
    | 0 => rw [toDecAux_zero] at h; simp at h
    | m + 1 =>
      rw [show toDecAux (fuel + 1) (m + 1)
          = toDecAux fuel ((m + 1) / 10) ++ [(m + 1) % 10 + 48] from rfl] at h
      rcases List.mem_append.mp h with h1 | h1
      · exact ih _ _ h1
      · simp at h1
        omega

theorem decBytes_digits (n d : Nat) (h : d ∈ decBytes n) : 48 ≤ d ∧ d ≤ 57 := by
  unfold decBytes at h
  split at h
  · simp at h
    omega
  · exact toDecAux_digits n n d h

theorem decBytes_parse (n : Nat) (h : 0 < n) : parseDec (decBytes n) = n := by
  unfold decBytes
  rw [if_neg (by omega)]
  exact toDecAux_parse n n (Nat.le_refl n) h

theorem takeWhile_nonzero (fn rest : List Nat) (h : ∀ x ∈ fn, 0 < x) :
    (fn ++ 0 :: rest).takeWhile (fun x => x != 0) = fn := by
  induction fn with
  | nil => simp
  | cons a l ih =>
    have ha : 0 < a := h a (by simp)
    have ha' : (a != 0) = true := by
      simp [bne_iff_ne]
      omega
    simp only [List.cons_append, List.takeWhile_cons, ha', if_true]
    rw [ih (fun x hx => h x (by simp [hx]))]

theorem takeWhile_nonspace (ds rest : List Nat) (h : ∀ x ∈ ds, 48 ≤ x) :
    (ds ++ 32 :: rest).takeWhile (fun x => x != 32) = ds := by
  induction ds with
  | nil => simp
  | cons a l ih =>
    have ha : 48 ≤ a := h a (by simp)
    have ha' : (a != 32) = true := by
      simp [bne_iff_ne]
      omega
    simp only [List.cons_append, List.takeWhile_cons, ha', if_true]
    rw [ih (fun x hx => h x (by simp [hx]))]

theorem jsWrite_shape (m sq cp : Nat) (n : Nat) (str : List Nat) (h : str.length ≤ n) :
    jsWrite (m :: sq :: cp :: List.replicate n 0) str 3
      = m :: sq :: cp :: (str ++ List.replicate (n - str.length) 0) := by
  simp only [jsWrite, jsCopy]
  have hcap : (m :: sq :: cp :: List.replicate n (0 : Nat)).length - 3 = n := by simp
  rw [hcap, List.drop_zero, List.take_length, List.take_of_length_le h, drop3,
    List.drop_replicate]
  rfl

theorem jsWrite_at_len (pre str post : List Nat) (h : str.length ≤ post.length) :
    jsWrite (pre ++ post) str pre.length = pre ++ (str ++ post.drop str.length) := by
  simp only [jsWrite, jsCopy]
  have hlen : (pre ++ post).length - pre.length = post.length := by simp
  rw [hlen, List.drop_zero, List.take_length, List.take_of_length_le h,
    List.take_left, List.drop_append]
  simp [List.append_assoc]

theorem makeFileHeader_zero (fn : List Nat) (hne : fn ≠ []) (hlen : fn.length ≤ 128) :
    makeFileHeader fn 0
      = SOH :: 0 :: 0xff ::
          ((fn ++ List.replicate (128 - fn.length) 0)
            ++ [crc16xmodem (fn ++ List.replicate (128 - fn.length) 0) 0 128 0 / 256,
              crc16xmodem (fn ++ List.replicate (128 - fn.length) 0) 0 128 0 % 256]) := by
  simp only [makeFileHeader]
  rw [if_neg hne, if_true]
  dsimp only
  rw [replicate_sets, jsWrite_shape SOH 0 0xff (128 + 2) fn (by omega)]
  have hsp : (128 + 2 : Nat) - fn.length = (128 - fn.length) + 2 := by omega
  rw [hsp, List.replicate_add, ← List.append_assoc,
    show List.replicate 2 (0 : Nat) = [0, 0] from rfl]
  rw [crc16_chunk SOH 0 0xff 0 0 128 (fn ++ List.replicate (128 - fn.length) 0)
    (by simp; omega)]
  rw [chunk_len_sub, writeUInt16BE_append]
  rw [(writeBE_bytes _ (crc16xmodem_lt _ _ _ _ (by norm_num))).1,
    (writeBE_bytes _ (crc16xmodem_lt _ _ _ _ (by norm_num))).2]

theorem makeFileHeader_pos (fn : List Nat) (size : Nat) (hne : fn ≠ []) (hpos : size ≠ 0)
    (hfit : fn.length + 1 + (decBytes size).length + 1 ≤ 128) :
    makeFileHeader fn size
      = SOH :: 0 :: 0xff ::
          ((fn ++ [0] ++ decBytes size ++ [0x20]
            ++ List.replicate (126 - fn.length - (decBytes size).length) 0)
            ++ [crc16xmodem (fn ++ [0] ++ decBytes size ++ [0x20]
                ++ List.replicate (126 - fn.length - (decBytes size).length) 0) 0 128 0 / 256,
              crc16xmodem (fn ++ [0] ++ decBytes size ++ [0x20]
                ++ List.replicate (126 - fn.length - (decBytes size).length) 0) 0 128 0
                % 256]) := by
  simp only [makeFileHeader]
  rw [if_neg hne, if_neg hpos]
  dsimp only
  rw [replicate_sets, jsWrite_shape SOH 0 0xff (128 + 2) fn (by omega)]
  have hb : SOH :: 0 :: 0xff :: (fn ++ List.replicate (128 + 2 - fn.length) 0)
      = (SOH :: 0 :: 0xff :: (fn ++ [0])) ++ List.replicate (128 + 2 - fn.length - 1) 0 := by
    have hc : (128 + 2 : Nat) - fn.length = (128 + 2 - fn.length - 1) + 1 := by omega
    rw [hc, List.replicate_succ]
    simp
  rw [hb]
  have hoff : 3 + fn.length + 1 = (SOH :: 0 :: 0xff :: (fn ++ [0])).length := by
    simp
    omega
  rw [hoff, jsWrite_at_len _ _ _ (by simp; omega), List.drop_replicate]
  have hshape : (SOH :: 0 :: 0xff :: (fn ++ [0]))
        ++ ((decBytes size ++ [0x20])
          ++ List.replicate (128 + 2 - fn.length - 1 - (decBytes size ++ [0x20]).length) 0)
      = SOH :: 0 :: 0xff ::
          ((fn ++ [0] ++ decBytes size ++ [0x20]
            ++ List.replicate (126 - fn.length - (decBytes size).length) 0) ++ [0, 0]) := by
    have hc : 128 + 2 - fn.length - 1 - (decBytes size ++ [0x20]).length
        = (126 - fn.length - (decBytes size).length) + 2 := by
      simp
      omega
    rw [hc, List.replicate_add, show List.replicate 2 (0 : Nat) = [0, 0] from rfl]
    simp [List.append_assoc]
  rw [hshape]
  rw [crc16_chunk SOH 0 0xff 0 0 128 _ (by simp; omega)]
  rw [chunk_len_sub, writeUInt16BE_append]
  rw [(writeBE_bytes _ (crc16xmodem_lt _ _ _ _ (by norm_num))).1,
    (writeBE_bytes _ (crc16xmodem_lt _ _ _ _ (by norm_num))).2]

/-- C5 (amended): for a nonempty NUL-free filename and a positive filesize
whose text fits the 128-byte payload together with the filename, the header
packet has marker SOH, sequence 0, complement 0xFF, the documented payload
layout with zero padding, the CRC of the full payload big-endian at the
end, and parsing the payload recovers the filename and filesize. -/
theorem claim5_header (fn : List Nat) (size : Nat) (hne : fn ≠ []) (hpos : 0 < size)
    (hbytes : ∀ x ∈ fn, 0 < x)
    (hfit : fn.length + 1 + (decBytes size).length + 1 ≤ 128) :
    headerOk fn size := by
  have hpos' : size ≠ 0 := by omega
  have hmk := makeFileHeader_pos fn size hne hpos' hfit
  set body := fn ++ [0] ++ decBytes size ++ [0x20]
      ++ List.replicate (126 - fn.length - (decBytes size).length) 0 with hbody
  have hbl : body.length = 128 := by
    rw [hbody]
    simp
    omega
  have hform : body = fn ++ 0 :: (decBytes size
      ++ 32 :: List.replicate (126 - fn.length - (decBytes size).length) 0) := by
    rw [hbody]
    simp [List.append_assoc]
  have hpr : payloadRegion (makeFileHeader fn size) = body := by
    rw [hmk]
    exact payloadRegion_shape _ _ _ _ _ _
  have hname : headerName body = fn := by
    rw [hform]
    exact takeWhile_nonzero fn _ hbytes
  unfold headerOk
  refine ⟨?_, ?_, ?_, ?_, ?_, ?_, ?_, ?_, ?_⟩
  · rw [hmk]; rfl
  · rw [hmk]; rfl
  · rw [hmk]; rfl
  · rw [hmk]
    simp [hbl]
  · rw [hpr, hbody]
  · rw [hpr, hmk]
    have h131 : (131 : Nat) = 3 + body.length := by rw [hbl]
    rw [h131, getD3, List.getD_append_right _ _ _ _ (Nat.le_refl _)]
    simp
  · rw [hpr, hmk]
    have h132 : (132 : Nat) = 3 + (body.length + 1) := by rw [hbl]
    rw [h132, getD3, List.getD_append_right _ _ _ _ (by omega)]
    have hone : body.length + 1 - body.length = 1 := by omega
    rw [hone]
    rfl
  · rw [hpr]
    exact hname
  · rw [hpr]
    unfold headerSize
    rw [hname]
    have hdrop : body.drop (fn.length + 1) = decBytes size
        ++ 32 :: List.replicate (126 - fn.length - (decBytes size).length) 0 := by
      rw [hform, show fn ++ 0 :: (decBytes size
          ++ 32 :: List.replicate (126 - fn.length - (decBytes size).length) 0)
        = (fn ++ [0]) ++ (decBytes size
          ++ 32 :: List.replicate (126 - fn.length - (decBytes size).length) 0) from by
            simp]
      rw [show fn.length + 1 = (fn ++ [0]).length from by simp]
      exact List.drop_left _ _
    rw [hdrop, takeWhile_nonspace _ _ (fun x hx => (decBytes_digits size x hx).1)]
    exact decBytes_parse size hpos

/-- Witness for the amended C5 at a concrete filename and filesize. -/
theorem claim5_witness :
    ([97] : List Nat) ≠ [] ∧ 0 < 3 ∧ (∀ x ∈ ([97] : List Nat), 0 < x) ∧
    ([97] : List Nat).length + 1 + (decBytes 3).length + 1 ≤ 128 ∧ headerOk [97] 3 :=
  ⟨by decide, by decide, by decide, by decide,
    claim5_header [97] 3 (by decide) (by decide) (by decide) (by decide)⟩

set_option maxRecDepth 100000 in
/-- Counterexample to C5 as stated: with a 128-byte filename the filesize
text is truncated away entirely (the payload is just the filename bytes),
so parsing back does not recover the filesize. -/
theorem claim5_counterexample :
    payloadRegion (makeFileHeader (List.replicate 128 97) 5) = List.replicate 128 97 ∧
    headerSize (payloadRegion (makeFileHeader (List.replicate 128 97) 5)) ≠ 5 := by
  decide

/-- C6 (amended): a 0-byte file gets a header whose payload is the filename,
a NUL, and zero padding only (no size text), no data packets, and the
terminal frame is sent in response to the first poll after the header ACK. -/
theorem claim6_zero_file (fn : List Nat) (hne : fn ≠ []) (hlen : fn.length ≤ 127) :
    headerZeroOk fn := by
  have hmk := makeFileHeader_zero fn hne (by omega)
  unfold headerZeroOk
  refine ⟨?_, rfl, rfl, rfl⟩
  rw [hmk, payloadRegion_shape]
  have hc : (128 : Nat) - fn.length = (127 - fn.length) + 1 := by omega
  rw [hc, List.replicate_succ]
  simp

/-- Witness for the amended C6 at a concrete filename. -/
theorem claim6_witness :
    ([97] : List Nat) ≠ [] ∧ ([97] : List Nat).length ≤ 127 ∧ headerZeroOk [97] :=
  ⟨by decide, by decide, claim6_zero_file [97] (by decide) (by decide)⟩

set_option maxRecDepth 100000 in
/-- Counterexample to C6 as stated: for a 0-byte file the payload does not
contain the decimal text for zero after the filename; the size field is
skipped entirely. -/
theorem claim6_counterexample :
    payloadRegion (makeFileHeader [97] 0)
      ≠ [97] ++ [0] ++ [48] ++ [32] ++ List.replicate 124 0 := by
  decide

/-- C7 (amended): the ACK transition mid-transfer, as the code implements
it: the written total jumps to `min((seq+1)*1024, totalBytes)` (see the
counterexample for the claimed `seq*1024`), the cursor advances, and the
packet at the new cursor (or the bare EOT byte) is sent; the total never
exceeds `totalBytes`. -/
theorem claim7_ack_advance (cfg : YConfig) (s : YState) (hf : s.finished = false)
    (hsess : s.session = true) (hsend : s.sending = true) (h0 : 0 < s.seq)
    (hlt : s.seq < cfg.file_trunks.length) (hw : s.writtenBytes ≤ cfg.totalBytes) :
    ackAdvanceOk cfg s := by
  obtain ⟨sq, sess, snd, fin, wr, pre, res⟩ := s
  simp only at hf hsess hsend h0 hlt hw
  subst hf hsess hsend
  have h0' : sq ≠ 0 := by omega
  unfold ackAdvanceOk processByte sendPacket
  simp only [ACK, CRC16, EOT, PACKET_SIZE_1024]
  norm_num [h0', hlt]
  split_ifs <;> omega

set_option maxRecDepth 10000 in
/-- Counterexample to C7 as stated: at cursor 1 with 3000 total bytes, an
ACK sets the written total to 2048, not `min(1*1024, 3000) = 1024`. -/
theorem claim7_counterexample :
    ¬ ((processByte ⟨[[0], [0], [0], [0]], 3000⟩ ⟨1, true, true, false, 0, 0, 0⟩ ACK).1.writtenBytes
        = min (1 * 1024) 3000) := by
  decide

/-- Witness for the amended C7 at a concrete state. -/
theorem claim7_witness :
    (⟨1, true, true, false, 0, 0, 0⟩ : YState).finished = false ∧
    (⟨1, true, true, false, 0, 0, 0⟩ : YState).session = true ∧
    (⟨1, true, true, false, 0, 0, 0⟩ : YState).sending = true ∧
    0 < (⟨1, true, true, false, 0, 0, 0⟩ : YState).seq ∧
    (⟨1, true, true, false, 0, 0, 0⟩ : YState).seq
      < (⟨[[0], [0], [0], [0]], 3000⟩ : YConfig).file_trunks.length ∧
    (⟨1, true, true, false, 0, 0, 0⟩ : YState).writtenBytes
      ≤ (⟨[[0], [0], [0], [0]], 3000⟩ : YConfig).totalBytes ∧
    ackAdvanceOk ⟨[[0], [0], [0], [0]], 3000⟩ ⟨1, true, true, false, 0, 0, 0⟩ :=
  ⟨rfl, rfl, rfl, by decide, by decide, by decide,
    claim7_ack_advance ⟨[[0], [0], [0], [0]], 3000⟩ ⟨1, true, true, false, 0, 0, 0⟩
      rfl rfl rfl (by decide) (by decide) (by decide)⟩

set_option maxRecDepth 10000 in
/-- C8 (amended): the `eot_pack` frame is 133 bytes and starts with SOH
(0x01), not the EOT control byte, and it is the frame written on a poll
past the end of the queue and on the final data ACK. -/
theorem claim8_eot_frame (cfg : YConfig) (s : YState) (hf : s.finished = false)
    (hseq : cfg.file_trunks.length ≤ s.seq) : eotPackOk cfg s := by
  obtain ⟨sq, sess, snd, fin, wr, pre, res⟩ := s
  simp only at hf hseq
  subst hf
  have hnlt : ¬ sq < cfg.file_trunks.length := by omega
  unfold eotPackOk
  refine ⟨by decide, by decide, ?_, ?_⟩
  · unfold processByte
    dsimp only
    rw [if_neg (show ¬((false : Bool) = true) by decide),
      if_pos (show CRC16 = CRC16 from rfl), if_pos hseq]
  · intro hsess hsend h0
    simp only at hsess hsend h0
    subst hsess hsend
    have h0' : sq ≠ 0 := by omega
    unfold processByte
    dsimp only
    rw [if_neg (show ¬((false : Bool) = true) by decide),
      if_neg (show ¬(ACK = CRC16) by decide),
      if_pos (show ACK = ACK from rfl),
      if_pos (show (true : Bool) = true from rfl)]
    dsimp only
    rw [if_pos (show (true : Bool) = true from rfl),
      if_neg (show ¬(sq = 0) from h0'), if_neg hnlt]

set_option maxRecDepth 10000 in
/-- Counterexample to C8 as stated: the first byte of `eot_pack` is not the
EOT control byte 0x04. -/
theorem claim8_counterexample : ¬ (eot_pack.getD 0 0 = EOT) := by
  decide

set_option maxRecDepth 10000 in
/-- Witness for the amended C8 at a concrete state past the queue end. -/
theorem claim8_witness :
    (⟨1, true, true, false, 0, 0, 0⟩ : YState).finished = false ∧
    (⟨[], 0⟩ : YConfig).file_trunks.length ≤ (⟨1, true, true, false, 0, 0, 0⟩ : YState).seq ∧
    eotPackOk ⟨[], 0⟩ ⟨1, true, true, false, 0, 0, 0⟩ :=
  ⟨rfl, by decide, claim8_eot_frame ⟨[], 0⟩ ⟨1, true, true, false, 0, 0, 0⟩ rfl (by decide)⟩

theorem resolved_inv (cfg : YConfig) (s : YState) (ch : Nat)
    (h : s.resolved = if s.finished = true then 1 else 0) :
    (processByte cfg s ch).1.resolved
      = if (processByte cfg s ch).1.finished = true then 1 else 0 := by
  obtain ⟨sq, sess, snd, fin, wr, pre, res⟩ := s
  cases fin
  · simp at h
    subst h
    by_cases h1 : ch = CRC16
    · subst h1
      simp [processByte]
      split_ifs <;> simp_all
    · by_cases h2 : ch = ACK
      · subst h2
        simp [processByte, h1]
        cases sess
        · simp [close, finish]
        · cases snd
          · simp
          · simp only [if_true]
            split_ifs <;> simp_all
      · by_cases h3 : ch = NAK
        · subst h3
          simp [processByte, h1, h2]
        · by_cases h4 : ch = CA
          · subst h4
            simp [processByte, h1, h2, h3, close, finish]
          · simp [processByte, h1, h2, h3, h4]
  · simp at h
    subst h
    simp [processByte]

theorem foldl_resolved (cfg : YConfig) :
    ∀ (bytes : List Nat) (acc : YState × List (List Nat)),
      acc.1.resolved = (if acc.1.finished = true then 1 else 0) →
      ((bytes.foldl (fun acc ch =>
          let r := processByte cfg acc.1 ch
          (r.1, acc.2 ++ r.2)) acc).1).resolved
        = if ((bytes.foldl (fun acc ch =>
            let r := processByte cfg acc.1 ch
            (r.1, acc.2 ++ r.2)) acc).1).finished = true then 1 else 0 := by
  intro bytes
  induction bytes with
  | nil => intro acc h; exact h
  | cons ch rest ih =>
    intro acc h
    rw [List.foldl_cons]
    exact ih _ (resolved_inv cfg acc.1 ch h)

/-- C9 evaluation: the promise-resolution behaviour of the driver.  On an
inbound stream that ends with no final handshake (empty trace) the outcome
is never produced — the claim's stream-end path does not resolve; the CA
path and the final-ACK path each resolve exactly once; and no trace ever
resolves more than once. -/
theorem claim9_resolution (cfg : YConfig) :
    (runSession cfg []).1.resolved = 0 ∧
    (runSession cfg [CA]).1.resolved = 1 ∧
    (runSession ⟨[[0]], 0⟩ [CRC16, ACK, ACK, ACK]).1.resolved = 1 ∧
    ∀ incoming : List Nat, (runSession cfg incoming).1.resolved ≤ 1 := by
  refine ⟨rfl, rfl, by decide, ?_⟩
  intro incoming
  have h : ((processBytes cfg initState incoming).1).resolved
      = if ((processBytes cfg initState incoming).1).finished = true then 1 else 0 :=
    foldl_resolved cfg incoming (initState, []) rfl
  show (processBytes cfg initState incoming).1.resolved ≤ 1
  rw [h]
  split <;> omega

/-- C10: once `finished` is set the driver ignores every inbound byte: no
write is issued and the state (all session variables) is unchanged, for a
single byte and for any whole trace of bytes. -/
theorem claim10_quiescent (cfg : YConfig) (s : YState) (hfin : s.finished = true) :
    (∀ ch : Nat, processByte cfg s ch = (s, [])) ∧
    (∀ bytes : List Nat, processBytes cfg s bytes = (s, [])) := by
  have h1 : ∀ ch, processByte cfg s ch = (s, []) := by
    intro ch
    unfold processByte
    rw [if_pos hfin]
  refine ⟨h1, ?_⟩
  intro bytes
  induction bytes with
  | nil => rfl
  | cons ch rest ih =>
    unfold processBytes at ih ⊢
    rw [List.foldl_cons]
    dsimp only
    rw [h1 ch]
    simpa using ih

/-- Witness for C10 at a concrete finished state. -/
theorem claim10_witness :
    (⟨0, false, false, true, 0, 0, 1⟩ : YState).finished = true ∧
    processByte ⟨[], 0⟩ ⟨0, false, false, true, 0, 0, 1⟩ 6
      = (⟨0, false, false, true, 0, 0, 1⟩, []) ∧
    processBytes ⟨[], 0⟩ ⟨0, false, false, true, 0, 0, 1⟩ [67, 6]
      = (⟨0, false, false, true, 0, 0, 1⟩, []) :=
  ⟨rfl, (claim10_quiescent ⟨[], 0⟩ ⟨0, false, false, true, 0, 0, 1⟩ rfl).1 6,
    (claim10_quiescent ⟨[], 0⟩ ⟨0, false, false, true, 0, 0, 1⟩ rfl).2 [67, 6]⟩

end Ymodem
